import Mathlib

/-!
Verification of `build_db.py`: a shallow embedding of the tag resolver,
range partitioner, diff extractor, schema store and backport correlator,
together with proofs checking the documented behaviour against the code.

Python string primitives are embedded as structurally recursive functions
over `List Char` so that every definition evaluates inside the kernel.
-/

set_option maxRecDepth 4000

-- ## Python string primitives

/-- Python `s.split(sep)` for a single separator character, on char lists:
splitting keeps empty chunks and the empty string splits to one empty chunk. -/
def splitCh (p : Char → Bool) : List Char → List (List Char)
  | [] => [[]]
  | c :: t =>
    let r := splitCh p t
    if p c then [] :: r
    else
      match r with
      | [] => [[c]]
      | h :: tl => (c :: h) :: tl

/-- Python `s.split(sep)` (single-character separators given by `p`). -/
def pySplit (s : String) (p : Char → Bool) : List String :=
  (splitCh p s.toList).map (fun l => String.mk l)

/-- Python `s.startswith(pre)`. -/
def pyStartsWith (s pre : String) : Bool :=
  s.toList.take pre.toList.length == pre.toList

/-- Python substring containment `sub in l`, scanning every position. -/
def containsGo (needle : List Char) : List Char → Bool
  | [] => needle.isEmpty
  | c :: t => (needle == (c :: t).take needle.length) || containsGo needle t

/-- Python `sub in l`. -/
def pyIn (sub l : String) : Bool := containsGo sub.toList l.toList

/-- Python slice `s[n:]`. -/
def pyDropStr (s : String) (n : Nat) : String := String.mk (s.toList.drop n)

/-- Python slice `s[:n]`. -/
def pyTakeStr (s : String) (n : Nat) : String := String.mk (s.toList.take n)

/-- Digit-string accumulator for `int(...)`. -/
def parseNatGo : List Char → Nat → Option Nat
  | [], acc => some acc
  | c :: t, acc => if c.isDigit then parseNatGo t (acc * 10 + (c.toNat - 48)) else none

/-- Python `int(s)` restricted to compact decimal strings (optionally signed),
the only shapes the program ever feeds it; any other input is a `ValueError`,
modelled as `none`. -/
def pyParseInt (s : String) : Option Int :=
  match s.toList with
  | [] => none
  | c :: t =>
    if c == '-' then
      match t with
      | [] => none
      | _ => (parseNatGo t 0).map (fun n => -(n : Int))
    else (parseNatGo (c :: t) 0).map (fun n => (n : Int))

/-- Python `int(s)` for the non-negative rename scores. -/
def pyParseNat (s : String) : Option Nat :=
  match s.toList with
  | [] => none
  | cs => parseNatGo cs 0

/-- Python `str(x)` on an optional string (`str(None) = "None"`). -/
def pyStr : Option String → String
  | none => "None"
  | some s => s

/-- Python `set(...)` materialised as a duplicate-free list keeping first
occurrences (set iteration order is unspecified; only the membership matters). -/
def dedupGo [DecidableEq α] (seen : List α) : List α → List α
  | [] => []
  | a :: t => if a ∈ seen then dedupGo seen t else a :: dedupGo (a :: seen) t

/-- Python set comprehension over a list. -/
def pySet [DecidableEq α] (l : List α) : List α := dedupGo [] l

/-- `itertools.groupby` without a key function, keeping one representative per
run of consecutive equal elements (the program only uses the group keys). -/
def groupbyKeys [DecidableEq α] : List α → List α
  | [] => []
  | [a] => [a]
  | a :: b :: t => if a = b then groupbyKeys (b :: t) else a :: groupbyKeys (b :: t)

-- ## Module constants from build_db.py

/-- The root boundary commit (`BIG_BANG` in the source). -/
def BIG_BANG : String := "1da177e4c3f41524e886b7f1b8a0c1fc7321cac2"

/-- The pathological path excluded from raw-diff parsing (`BLACKLIST`). -/
def BLACKLIST : String := "Dell Inc.,XPS 13 9300"

-- ## HASH_PATTERN = re.compile(r"Git-commit:[ \t]*([0-9a-f]{9,40})[ \t]*")

/-- One attempt to match `HASH_PATTERN` at the head of the character stream.
Returns the captured hex group and the number of characters the whole match
consumed, or `none` when the pattern does not match here. -/
def hashMatchAt (cs : List Char) : Option (String × Nat) :=
  let lit := "Git-commit:".toList
  if cs.take lit.length == lit then
    let r1 := cs.drop lit.length
    let ws := r1.takeWhile (fun c => c == ' ' || c == '\t')
    let r2 := r1.drop ws.length
    let hex := r2.takeWhile (fun c => c.isDigit || ('a' ≤ c && c ≤ 'f'))
    if 9 ≤ hex.length then
      let g := hex.take 40
      let r3 := r2.drop g.length
      let tws := r3.takeWhile (fun c => c == ' ' || c == '\t')
      some (String.mk g, lit.length + ws.length + g.length + tws.length)
    else none
  else none

/-- `re.findall(HASH_PATTERN, l)`: left-to-right non-overlapping scan; a match
restarts the scan after its end, a failure advances one character. Each step
consumes at least one character, so `fuel = length` never runs out. -/
def findallGo : Nat → List Char → List String
  | 0, _ => []
  | _, [] => []
  | Nat.succ fuel, l =>
    match hashMatchAt l with
    | some (g, n) => g :: findallGo fuel (l.drop n)
    | none =>
      match l with
      | [] => []
      | _ :: t => findallGo fuel t

/-- All `HASH_PATTERN` capture groups in a line, in order. -/
def findall (s : String) : List String := findallGo s.toList.length s.toList

-- ## DiffExtractor: get_renames_with_score_or_none / between

/-- The loosely-shaped tuple returned by `get_renames_with_score_or_none`:
`(rr[0], rr[1], rr[2])` for a rename, `('add', rr[1])`, `('del', rr[1])`. -/
inductive RawRec where
  | ren (status p1 p2 : String)
  | add (p : String)
  | del (p : String)
deriving DecidableEq, Repr

/-- `get_renames_with_score_or_none(l)`: split the 5th space-field of a raw
diff line on tabs and dispatch on the status letter. The outer `Option` is an
`IndexError` (malformed line); the inner `Option` is Python's `None` result. -/
def get_renames_with_score_or_none (l : String) : Option (Option RawRec) :=
  match (pySplit l (fun c => c == ' '))[4]? with
  | none => none
  | some f4 =>
    match pySplit f4 (fun c => c == '\t') with
    | [] => none
    | r0 :: rest =>
      if pyStartsWith r0 "R" then
        match rest with
        | p1 :: p2 :: _ => some (some (RawRec.ren r0 p1 p2))
        | _ => none
      else if pyStartsWith r0 "A" then
        match rest with
        | p1 :: _ => some (some (RawRec.add p1))
        | _ => none
      else if pyStartsWith r0 "D" then
        match rest with
        | p1 :: _ => some (some (RawRec.del p1))
        | _ => none
      else some none

/-- One row of the `many` list built by `between`, in the tuple order bound by
`store_changes_into_db`: `(commit, score, from, to, tag)`. -/
structure Change where
  commit : String
  score : Option Int
  fromF : Option String
  toF : Option String
  tag : String
deriving DecidableEq, Repr

/-- A write against the sqlite store, as performed by a function of the
program (used to record which process performs which writes). -/
inductive DbWrite where
  | store_commits (rows : List String)
  | store_files (rows : List (Option String))
  | store_changes (rows : List Change)
deriving DecidableEq, Repr

/-- The raw-line branch of `between`'s loop (source lines 210-218): classify
the line and build the `many` tuple for it. `none` is a crash (`IndexError` /
`ValueError`), `some none` appends nothing, `some (some c)` appends `c`. -/
def classify_raw_line (h : Option String) (endTag l : String) : Option (Option Change) :=
  match get_renames_with_score_or_none l with
  | none => none
  | some none => some none
  | some (some (RawRec.ren r0 p1 p2)) =>
    match pyParseInt (pyDropStr r0 1) with
    | none => none
    | some sc => some (some (Change.mk (pyStr h) (some sc) (some p1) (some p2) endTag))
  | some (some (RawRec.add p)) => some (some (Change.mk (pyStr h) none none (some p) endTag))
  | some (some (RawRec.del p)) => some (some (Change.mk (pyStr h) none (some p) none endTag))

/-- `l.split(' ')[0]`, the abbreviated commit id of a header line. -/
def first_space_field (l : String) : String := (pySplit l (fun c => c == ' ')).headD ""

/-- The line loop of `between`: `hash` is the current commit (initially
`None`), `resolver` models `repo.revparse_single(..).id` on the abbreviated
id of a header line. Breaks on an empty line or on the root boundary commit
`BIG_BANG[:12]`, skips `BLACKLIST` lines, classifies raw lines and otherwise
updates the current commit. -/
def between_loop (resolver : String → String) (endTag : String) :
    Option String → List String → Option (List Change)
  | _, [] => some []
  | h, l :: ls =>
    if l == "" || pyStartsWith l (pyTakeStr BIG_BANG 12) then some []
    else if pyIn BLACKLIST l then between_loop resolver endTag h ls
    else if pyStartsWith l ":" then
      match classify_raw_line h endTag l with
      | none => none
      | some none => between_loop resolver endTag h ls
      | some (some c) => (between_loop resolver endTag h ls).map (fun r => c :: r)
    else between_loop resolver endTag (some (resolver (first_space_field l))) ls

/-- `between(begin, end, lpath)` after the subprocess call: parse the log
lines, write the deduplicated commit set into the store (recorded as a
`DbWrite`, since this happens inside the worker task), and return the file
set and the `many` change tuples. `lines` is the decoded stdout split on
newlines; `begin` only affects the git command, not the parsing. -/
def between (lines : List String) (resolver : String → String) (endTag : String) :
    Option (List DbWrite × List (Option String) × List Change) :=
  match between_loop resolver endTag none lines with
  | none => none
  | some many =>
    let commits := pySet (many.map (fun c => c.commit))
    let filesx := many.filterMap (fun c =>
      match c.fromF with
      | some f => if f == "" then none else some f
      | none => none)
    let filesy := many.map (fun c => c.toF)
    let files := pySet (groupbyKeys (filesx.map some ++ filesy))
    some ([DbWrite.store_commits commits], files, many)

-- ## TagResolver: key_function / extract_srcversion / get_tags_from_ksource_tree

/-- `key_function(s)`: split on `.` and `-`, keep at most three components,
convert each to `int`, stripping a leading `rc` from the third. `none` models
the `ValueError` Python raises on a non-numeric component. -/
def key_function (s : String) : Option (List Int) :=
  match (pySplit s (fun c => c == '.' || c == '-')).take 3 with
  | [] => none
  | [a] => (pyParseInt a).map (fun x => [x])
  | [a, b] =>
    match pyParseInt a, pyParseInt b with
    | some x, some y => some [x, y]
    | _, _ => none
  | a :: b :: c :: _ =>
    match pyParseInt a, pyParseInt b,
        (if pyStartsWith c "rc" then pyParseInt (pyDropStr c 2) else pyParseInt c) with
    | some x, some y, some z => some [x, y, z]
    | _, _, _ => none

/-- Python `<` on lists of ints: lexicographic, a strict prefix is smaller. -/
def pyListLt : List Int → List Int → Bool
  | [], [] => false
  | [], _ :: _ => true
  | _ :: _, [] => false
  | a :: as_, b :: bs => if a < b then true else if b < a then false else pyListLt as_ bs

/-- Stable insertion of a keyed element: it goes before the first element
whose key is not smaller, so equal keys keep their original order. -/
def insertKeyed (x : String × List Int) : List (String × List Int) → List (String × List Int)
  | [] => [x]
  | y :: ys => if pyListLt y.2 x.2 then y :: insertKeyed x ys else x :: y :: ys

/-- `sorted(l, key=key_function)`: compute every key (a failure anywhere is a
`ValueError`, modelled as `none`), then sort stably by Python list `<`. -/
def sorted_by_key (l : List String) : Option (List String) :=
  match l.mapM (fun s => (key_function s).map (fun k => (s, k))) with
  | none => none
  | some pairs => some ((pairs.foldr insertKeyed []).map Prod.fst)

/-- `extract_srcversion` line loop: first line starting with `SRCVERSION=`
yields the text after the first `=` (index 1 of the `=`-split always exists
because such a line contains `=`); otherwise the empty string. -/
def extract_srcversion_go : List String → String
  | [] => ""
  | l :: ls =>
    if pyStartsWith l "SRCVERSION=" then (pySplit l (fun c => c == '=')).getD 1 ""
    else extract_srcversion_go ls

/-- `extract_srcversion(content)`. -/
def extract_srcversion (content : String) : String :=
  extract_srcversion_go (pySplit content (fun c => c == '\n'))

/-- `get_tags_from_ksource_tree(branches, repo)`: `blob b` models the
`rpm/config.sh` lookup in branch `b`'s tree (`none` is the `KeyError` path).
Returns the branch-to-version mapping and the list of branches reported on
stderr. -/
def get_tags_from_ksource_tree :
    List String → (String → Option String) → List (String × String) × List String
  | [], _ => ([], [])
  | b :: bs, blob =>
    match blob b with
    | some content =>
      let r := get_tags_from_ksource_tree bs blob
      ((b, extract_srcversion content) :: r.1, r.2)
    | none =>
      let r := get_tags_from_ksource_tree bs blob
      (r.1, b :: r.2)

-- ## BackportCorrelator: get_hash_or_nothing / get_commits_per_branch

/-- The line loop of `get_hash_or_nothing`: on the first line where
`re.findall(HASH_PATTERN, l)` is non-empty, resolve `ps[0]` (`resolver`
models `lrepo.revparse_single(..)` with `none` for the caught exception) and
return immediately either way; otherwise keep scanning. -/
def get_hash_or_nothing_go (resolver : String → Option String) : List String → Option String
  | [] => none
  | l :: ls =>
    match findall l with
    | [] => get_hash_or_nothing_go resolver ls
    | p :: _ =>
      match resolver p with
      | some h => some h
      | none => none

/-- `get_hash_or_nothing(fc, lrepo)`. -/
def get_hash_or_nothing (fc : String) (resolver : String → Option String) : Option String :=
  get_hash_or_nothing_go resolver (pySplit fc (fun c => c == '\n'))

/-- `get_commits_per_branch(branches, krepo, lrepo)`: `patches b` models the
list of `patches.suse/` blob contents of branch `b`'s tree (`none` is the
caught per-branch exception, which leaves `ret[b] = []`). A blob contributes
its resolved hash only when `get_hash_or_nothing` returns a truthy string. -/
def get_commits_per_branch (branches : List String)
    (patches : String → Option (List String)) (resolver : String → Option String) :
    List (String × List String) :=
  branches.map (fun b => (b,
    match patches b with
    | none => []
    | some blobs => blobs.filterMap (fun fc =>
        match get_hash_or_nothing fc resolver with
        | some h => if h == "" then none else some h
        | none => none)))

-- ## RangePartitioner: prepare_tags_for_parallel_partition

/-- `prepare_tags_for_parallel_partition(uniq_tags)`: the snapshot descriptor
`('', first_tag)` (an empty lower bound is falsy, so `between` runs the
unbounded command) followed by one `(prev, cur)` descriptor per consecutive
pair. `none` models the `IndexError` on an empty list. -/
def prepare_tags_for_parallel_partition (uniq_tags : List String) :
    Option (List (String × String)) :=
  match uniq_tags with
  | [] => none
  | t0 :: rest => some (("", t0) :: List.zip (t0 :: rest) rest)

-- ## SchemaStore: tables, inserts and views

/-- A row of `tags` (`id INTEGER PRIMARY KEY AUTOINCREMENT, name TEXT UNIQUE NOT NULL`). -/
structure TagRow where
  id : Nat
  name : String
deriving DecidableEq, Repr

/-- A row of `files`. -/
structure FileRow where
  id : Nat
  name : String
deriving DecidableEq, Repr

/-- A row of `commits`. -/
structure CommitRow where
  id : Nat
  name : String
deriving DecidableEq, Repr

/-- A row of `branches`. -/
structure BranchRow where
  id : Nat
  name : String
  tag_id : Nat
deriving DecidableEq, Repr

/-- A row of `backports`. -/
structure BackportRow where
  commit_id : Nat
  branch_id : Nat
deriving DecidableEq, Repr

/-- A row of `changes`: `commit_id` is `NOT NULL`, the other references are
nullable. -/
structure ChangeRow where
  commit_id : Nat
  score : Option Int
  from_id : Option Nat
  to_id : Option Nat
  tag_id : Option Nat
deriving DecidableEq, Repr

/-- The relational store populated by `create_db`. -/
structure Db where
  tags : List TagRow
  branches : List BranchRow
  commits : List CommitRow
  files : List FileRow
  changes : List ChangeRow
  backports : List BackportRow
deriving DecidableEq, Repr

/-- `insert or ignore into files (name) values (?)`: a duplicate name or a
NULL name (NOT NULL violation) is silently skipped by `OR IGNORE`. -/
def insert_or_ignore_file (tbl : List String) : Option String → List String
  | none => tbl
  | some n => if n ∈ tbl then tbl else tbl ++ [n]

/-- `store_files_into_db(many)` against a table state (executemany loop). -/
def store_files_into_db (tbl : List String) : List (Option String) → List String
  | [] => tbl
  | r :: t => store_files_into_db (insert_or_ignore_file tbl r) t

/-- `store_commits_into_db(many)` against a table state: a plain `insert`
into a `UNIQUE` column, so a duplicate raises `IntegrityError`. -/
def store_commits_into_db (tbl : List String) : List String → Except String (List String)
  | [] => Except.ok tbl
  | n :: t =>
    if n ∈ tbl then Except.error "UNIQUE constraint failed: commits.name"
    else store_commits_into_db (tbl ++ [n]) t

/-- `store_tags_into_db(uniq_tags)` on the fresh database: rows get
autoincrement ids 1, 2, ... in list order. -/
def store_tags_into_db (uniq_tags : List String) : List TagRow :=
  uniq_tags.enum.map (fun p => TagRow.mk (p.1 + 1) p.2)

/-- `(select id from tags where name = ?)`. -/
def select_tag_id (tags : List TagRow) (name : String) : Option Nat :=
  (tags.find? (fun r => r.name == name)).map (fun r => r.id)

/-- `(select id from files where name = ?)`. -/
def select_file_id (files : List FileRow) (name : String) : Option Nat :=
  (files.find? (fun r => r.name == name)).map (fun r => r.id)

/-- `(select id from commits where name = ?)`. -/
def select_commit_id (commits : List CommitRow) (name : String) : Option Nat :=
  (commits.find? (fun r => r.name == name)).map (fun r => r.id)

/-- `store_changes_into_db(many)`: each tuple `(commit, score, from, to, tag)`
is bound through the subselects; `commit_id` is NOT NULL, so an unresolved
commit is an `IntegrityError` (`none`), while unresolved `from`/`to`/`tag`
names simply store NULL. -/
def store_changes_into_db (commitsT : List CommitRow) (filesT : List FileRow)
    (tagsT : List TagRow) : List Change → Option (List ChangeRow)
  | [] => some []
  | c :: t =>
    match select_commit_id commitsT c.commit with
    | none => none
    | some cid =>
      (store_changes_into_db commitsT filesT tagsT t).map (fun r =>
        ChangeRow.mk cid c.score
          (c.fromF.bind (select_file_id filesT))
          (c.toF.bind (select_file_id filesT))
          (select_tag_id tagsT c.tag) :: r)

/-- A row of the three-column views (`branch, file, sha`). -/
structure BaseRow where
  branch : String
  file : String
  sha : String
deriving DecidableEq, Repr

/-- A row of the rename views (`branch, file, new_file, sha`). -/
structure RenameRow where
  branch : String
  file : String
  new_file : String
  sha : String
deriving DecidableEq, Repr

/-- A row of the unioned views, carrying the `source` column. -/
structure UnionRow where
  branch : String
  file : String
  sha : String
  source : String
deriving DecidableEq, Repr

/-- A row of the unioned rename view. -/
structure UnionRenameRow where
  branch : String
  file : String
  new_file : String
  sha : String
  source : String
deriving DecidableEq, Repr

/-- View `base_added`: changes with `to_id = f.id` and `from_id IS NULL`,
joined to commits, tags and branches. -/
def base_added (db : Db) : List BaseRow :=
  db.files.flatMap (fun f =>
    (db.changes.filter (fun ch => ch.to_id == some f.id && ch.from_id == none)).flatMap (fun ch =>
      (db.commits.filter (fun ci => ci.id == ch.commit_id)).flatMap (fun ci =>
        (db.tags.filter (fun t => some t.id == ch.tag_id)).flatMap (fun t =>
          (db.branches.filter (fun b => b.tag_id == t.id)).map (fun b =>
            BaseRow.mk b.name f.name ci.name)))))

/-- View `base_renamed`: changes with `to_id IS NOT NULL` and `from_id = f.id`. -/
def base_renamed (db : Db) : List RenameRow :=
  db.files.flatMap (fun f =>
    (db.changes.filter (fun ch => !(ch.to_id == none) && ch.from_id == some f.id)).flatMap (fun ch =>
      (db.files.filter (fun nf => ch.to_id == some nf.id)).flatMap (fun nf =>
        (db.commits.filter (fun ci => ci.id == ch.commit_id)).flatMap (fun ci =>
          (db.tags.filter (fun t => some t.id == ch.tag_id)).flatMap (fun t =>
            (db.branches.filter (fun b => b.tag_id == t.id)).map (fun b =>
              RenameRow.mk b.name f.name nf.name ci.name))))))

/-- View `base_removed`: changes with `to_id IS NULL` and `from_id = f.id`. -/
def base_removed (db : Db) : List BaseRow :=
  db.files.flatMap (fun f =>
    (db.changes.filter (fun ch => ch.to_id == none && ch.from_id == some f.id)).flatMap (fun ch =>
      (db.commits.filter (fun ci => ci.id == ch.commit_id)).flatMap (fun ci =>
        (db.tags.filter (fun t => some t.id == ch.tag_id)).flatMap (fun t =>
          (db.branches.filter (fun b => b.tag_id == t.id)).map (fun b =>
            BaseRow.mk b.name f.name ci.name)))))

/-- View `backports_added`, exactly as written in the source: it joins
`files f ON f.id = ch.from_id AND ch.to_id IS NULL`. -/
def backports_added (db : Db) : List BaseRow :=
  db.backports.flatMap (fun bp =>
    (db.branches.filter (fun b => b.id == bp.branch_id)).flatMap (fun b =>
      (db.changes.filter (fun ch => ch.commit_id == bp.commit_id)).flatMap (fun ch =>
        (db.commits.filter (fun ci => ci.id == ch.commit_id)).flatMap (fun ci =>
          (db.files.filter (fun f => some f.id == ch.from_id && ch.to_id == none)).map (fun f =>
            BaseRow.mk b.name f.name ci.name)))))

/-- View `backports_renamed`. -/
def backports_renamed (db : Db) : List RenameRow :=
  db.backports.flatMap (fun bp =>
    (db.branches.filter (fun b => b.id == bp.branch_id)).flatMap (fun b =>
      (db.changes.filter (fun ch => ch.commit_id == bp.commit_id)).flatMap (fun ch =>
        (db.commits.filter (fun ci => ci.id == ch.commit_id)).flatMap (fun ci =>
          (db.files.filter (fun f => some f.id == ch.from_id && !(ch.to_id == none))).flatMap (fun f =>
            (db.files.filter (fun nf => ch.to_id == some nf.id)).map (fun nf =>
              RenameRow.mk b.name f.name nf.name ci.name))))))

/-- View `backports_removed`. -/
def backports_removed (db : Db) : List BaseRow :=
  db.backports.flatMap (fun bp =>
    (db.branches.filter (fun b => b.id == bp.branch_id)).flatMap (fun b =>
      (db.changes.filter (fun ch => ch.commit_id == bp.commit_id)).flatMap (fun ch =>
        (db.commits.filter (fun ci => ci.id == ch.commit_id)).flatMap (fun ci =>
          (db.files.filter (fun f => some f.id == ch.from_id && ch.to_id == none)).map (fun f =>
            BaseRow.mk b.name f.name ci.name)))))

/-- View `added`: union of `base_added` and `backports_added` with a source tag. -/
def added (db : Db) : List UnionRow :=
  (base_added db).map (fun r => UnionRow.mk r.branch r.file r.sha "base")
    ++ (backports_added db).map (fun r => UnionRow.mk r.branch r.file r.sha "backport")

/-- View `renamed`. -/
def renamed (db : Db) : List UnionRenameRow :=
  (base_renamed db).map (fun r => UnionRenameRow.mk r.branch r.file r.new_file r.sha "base")
    ++ (backports_renamed db).map (fun r => UnionRenameRow.mk r.branch r.file r.new_file r.sha "backport")

/-- View `removed`. -/
def removed (db : Db) : List UnionRow :=
  (base_removed db).map (fun r => UnionRow.mk r.branch r.file r.sha "base")
    ++ (backports_removed db).map (fun r => UnionRow.mk r.branch r.file r.sha "backport")

-- ## Concrete inputs used by the claim theorems

/-- A two-line log excerpt: one commit header and one addition raw line. -/
def c2_lines : List String :=
  ["abc123 commit subject", ":000000 100644 0000000 1234567 A\tfoo.c", ""]

/-- A database holding, for branch `SLE15`, a backported addition
(`c1` adds `a.c`) and a backported deletion (`c2` deletes `b.c`). -/
def c3_db : Db :=
  Db.mk [TagRow.mk 1 "v5.3"] [BranchRow.mk 1 "SLE15" 1]
    [CommitRow.mk 1 "c1", CommitRow.mk 2 "c2"]
    [FileRow.mk 1 "a.c", FileRow.mk 2 "b.c"]
    [ChangeRow.mk 1 none none (some 1) (some 1), ChangeRow.mk 2 none (some 2) none (some 1)]
    [BackportRow.mk 1 1, BackportRow.mk 2 1]

/-- A log excerpt whose single commit adds `f.c`. -/
def c5_lines : List String :=
  ["aaa111 subject", ":000000 100644 0000000 1234567 A\tf.c", ""]

/-- A branch-configuration lookup: branch `gone` has no `rpm/config.sh`
blob, branch `nokey` has one without a `SRCVERSION=` line. -/
def c8_blob : String → Option String :=
  fun b => if b == "gone" then none else if b == "nokey" then some "FOO=1\nBAR=2" else none

/-- A patch blob whose first commit-reference line holds an unresolvable id
and whose later line holds a resolvable one. -/
def c9_blob_fail : String :=
  "subject line\nGit-commit: 0123456789abc\nGit-commit: abcdefabcdef"

/-- A patch blob whose reference resolves. -/
def c9_blob_ok : String := "Git-commit: fedcba9876543"

/-- A resolver that only knows the reference of `c9_blob_ok`. -/
def c9_resolver : String → Option String :=
  fun s => if s == "fedcba9876543" then some "resolved-full-hash" else none

/-- The patch blobs of branch `b1`. -/
def c9_patches : String → Option (List String) :=
  fun b => if b == "b1" then some [c9_blob_fail, c9_blob_ok] else none

/-- A log excerpt whose single commit deletes `old.c`. -/
def c10_lines : List String :=
  ["deadbee subject", ":100644 000000 1234567 0000000 D\told.c", ""]

-- ## Shared helper lemmas

theorem mem_dedupGo_of [DecidableEq α] (a : α) (l : List α) :
    ∀ seen, a ∈ l → a ∉ seen → a ∈ dedupGo seen l := by
  induction l with
  | nil => intro seen h _; cases h
  | cons b t ih =>
    intro seen hl hs
    simp only [dedupGo]
    by_cases hb : b ∈ seen
    · rw [if_pos hb]
      rcases List.mem_cons.mp hl with h | h
      · exact absurd (h ▸ hb) hs
      · exact ih seen h hs
    · rw [if_neg hb]
      by_cases hab : a = b
      · exact hab ▸ List.mem_cons_self _ _
      · rcases List.mem_cons.mp hl with h | h
        · exact absurd h hab
        · refine List.mem_cons_of_mem _ (ih (b :: seen) h ?_)
          intro hmem
          rcases List.mem_cons.mp hmem with h2 | h2
          · exact hab h2
          · exact hs h2

theorem mem_pySet_of [DecidableEq α] {a : α} {l : List α} (h : a ∈ l) : a ∈ pySet l :=
  mem_dedupGo_of a l [] h (List.not_mem_nil a)

theorem mem_groupbyKeys_of [DecidableEq α] {a : α} :
    ∀ {l : List α}, a ∈ l → a ∈ groupbyKeys l := by
  intro l
  induction l with
  | nil => intro h; cases h
  | cons b t ih =>
    intro hl
    cases t with
    | nil => simpa [groupbyKeys] using hl
    | cons c t2 =>
      simp only [groupbyKeys]
      by_cases hbc : b = c
      · rw [if_pos hbc]
        rcases List.mem_cons.mp hl with h | h
        · subst h; exact ih (hbc ▸ List.mem_cons_self c t2)
        · exact ih h
      · rw [if_neg hbc]
        rcases List.mem_cons.mp hl with h | h
        · exact h ▸ List.mem_cons_self _ _
        · exact List.mem_cons_of_mem _ (ih h)

theorem store_files_into_db_filter (rows : List (Option String)) :
    ∀ tbl, store_files_into_db tbl rows
      = store_files_into_db tbl (rows.filter (fun o => o.isSome)) := by
  induction rows with
  | nil => intro tbl; rfl
  | cons r t ih =>
    intro tbl
    cases r with
    | none =>
      simp only [store_files_into_db, insert_or_ignore_file, List.filter_cons,
        Option.isSome_none, Bool.false_eq_true, if_false]
      exact ih tbl
    | some n =>
      simp only [store_files_into_db, List.filter_cons, Option.isSome_some, if_true]
      exact ih _

theorem classify_raw_line_tag (h : Option String) (e l : String) (c : Change)
    (hc : classify_raw_line h e l = some (some c)) : c.tag = e := by
  unfold classify_raw_line at hc
  repeat' split at hc
  all_goals first
    | (cases hc; rfl)
    | (cases hc)

theorem between_loop_tag (resolver : String → String) (e : String) :
    ∀ (lines : List String) (h : Option String) (many : List Change),
      between_loop resolver e h lines = some many → ∀ c ∈ many, c.tag = e := by
  intro lines
  induction lines with
  | nil =>
    intro h many hm c hc
    simp only [between_loop, Option.some.injEq] at hm
    subst hm; cases hc
  | cons l ls ih =>
    intro h many hm c hc
    simp only [between_loop] at hm
    by_cases h1 : (l == "" || pyStartsWith l (pyTakeStr BIG_BANG 12)) = true
    · rw [if_pos h1] at hm
      simp only [Option.some.injEq] at hm
      subst hm; cases hc
    · rw [if_neg h1] at hm
      by_cases h2 : pyIn BLACKLIST l = true
      · rw [if_pos h2] at hm
        exact ih h many hm c hc
      · rw [if_neg h2] at hm
        by_cases h3 : pyStartsWith l ":" = true
        · rw [if_pos h3] at hm
          cases hcl : classify_raw_line h e l with
          | none => rw [hcl] at hm; cases hm
          | some ro =>
            rw [hcl] at hm
            cases ro with
            | none => exact ih h many hm c hc
            | some c0 =>
              cases hrec : between_loop resolver e h ls with
              | none => rw [hrec] at hm; cases hm
              | some rest =>
                rw [hrec] at hm
                simp only [Option.map_some', Option.some.injEq] at hm
                subst hm
                rcases List.mem_cons.mp hc with h4 | h4
                · exact h4 ▸ classify_raw_line_tag h e l c0 hcl
                · exact ih h rest hrec c h4
        · rw [if_neg h3] at hm
          exact ih _ many hm c hc

theorem between_elim {lines : List String} {resolver : String → String} {e : String}
    {w : List DbWrite} {fs : List (Option String)} {many : List Change}
    (hb : between lines resolver e = some (w, fs, many)) :
    between_loop resolver e none lines = some many
  ∧ w = [DbWrite.store_commits (pySet (many.map (fun c => c.commit)))]
  ∧ fs = pySet (groupbyKeys ((many.filterMap (fun c =>
        match c.fromF with
        | some f => if f == "" then none else some f
        | none => none)).map some ++ many.map (fun c => c.toF))) := by
  unfold between at hb
  cases hm : between_loop resolver e none lines with
  | none => rw [hm] at hb; cases hb
  | some m =>
    rw [hm] at hb
    simp only [Option.some.injEq, Prod.mk.injEq] at hb
    obtain ⟨h1, h2, h3⟩ := hb
    subst h1 h2 h3
    exact ⟨rfl, rfl, rfl⟩

theorem store_changes_into_db_mem (cT : List CommitRow) (fT : List FileRow) (tT : List TagRow) :
    ∀ (l : List Change) (rows : List ChangeRow),
      store_changes_into_db cT fT tT l = some rows →
      ∀ r ∈ rows, ∃ c ∈ l, ∃ cid, select_commit_id cT c.commit = some cid ∧
        r = ChangeRow.mk cid c.score (c.fromF.bind (select_file_id fT))
              (c.toF.bind (select_file_id fT)) (select_tag_id tT c.tag) := by
  intro l
  induction l with
  | nil =>
    intro rows h r hr
    simp only [store_changes_into_db, Option.some.injEq] at h
    subst h; cases hr
  | cons c0 t ih =>
    intro rows h r hr
    simp only [store_changes_into_db] at h
    cases hcid : select_commit_id cT c0.commit with
    | none => rw [hcid] at h; cases h
    | some cid =>
      rw [hcid] at h
      cases hrec : store_changes_into_db cT fT tT t with
      | none => rw [hrec] at h; cases h
      | some rs =>
        rw [hrec] at h
        simp only [Option.map_some', Option.some.injEq] at h
        subst h
        rcases List.mem_cons.mp hr with h4 | h4
        · exact ⟨c0, List.mem_cons_self _ _, cid, hcid, h4⟩
        · rcases ih rs hrec r h4 with ⟨c1, hc1, cid1, hcid1, hr1⟩
          exact ⟨c1, List.mem_cons_of_mem _ hc1, cid1, hcid1, hr1⟩

theorem store_tags_into_db_names (l : List String) :
    (store_tags_into_db l).map (fun r => r.name) = l := by
  unfold store_tags_into_db
  rw [List.map_map]
  have h : ((fun r => TagRow.name r) ∘ fun p : Nat × String => TagRow.mk (p.1 + 1) p.2)
      = Prod.snd := rfl
  rw [h, List.enum_map_snd]

theorem select_tag_id_of_mem {l : List String} {e : String} (he : e ∈ l) :
    ∃ i, select_tag_id (store_tags_into_db l) e = some i
      ∧ TagRow.mk i e ∈ store_tags_into_db l := by
  have hmem : ∃ r ∈ store_tags_into_db l, (r.name == e) = true := by
    have h1 : e ∈ (store_tags_into_db l).map (fun r => r.name) := by
      rw [store_tags_into_db_names]; exact he
    rcases List.mem_map.mp h1 with ⟨r, hr, hname⟩
    exact ⟨r, hr, by simp [hname]⟩
  rcases Option.isSome_iff_exists.mp (List.find?_isSome.mpr hmem) with ⟨r, hfind⟩
  have hname : r.name = e := by simpa using List.find?_some hfind
  have hmem2 := List.mem_of_find?_eq_some hfind
  refine ⟨r.id, ?_, ?_⟩
  · simp [select_tag_id, hfind]
  · have hre : TagRow.mk r.id e = r := by cases r; simp_all
    rw [hre]; exact hmem2

theorem select_tag_id_of_not_mem {l : List String} {e : String} (he : e ∉ l) :
    select_tag_id (store_tags_into_db l) e = none := by
  have hfind : (store_tags_into_db l).find? (fun r => r.name == e) = none := by
    rw [List.find?_eq_none]
    intro r hr hname
    apply he
    have h1 : r.name = e := by simpa using hname
    rw [← h1]
    have h2 := List.mem_map_of_mem (fun r => TagRow.name r) hr
    rwa [store_tags_into_db_names] at h2
  simp [select_tag_id, hfind]

-- ## Claim theorems

/-- Claim C1. The claim states that sorting `["5.3", "5.3.1", "5.10-rc1", "5.10"]`
with `key_function` yields that same order, with `rcN` before the final release.
In fact `key_function` maps `5.10-rc1` to `[5, 10, 1]` and `5.10` to `[5, 10]`,
and Python list comparison puts the strict prefix `[5, 10]` first, so the code
sorts the release `5.10` BEFORE `5.10-rc1`. -/
theorem c1_key_function_sort_eval :
    sorted_by_key ["5.3", "5.3.1", "5.10-rc1", "5.10"]
      = some ["5.3", "5.3.1", "5.10", "5.10-rc1"]
  ∧ sorted_by_key ["5.3", "5.3.1", "5.10-rc1", "5.10"]
      ≠ some ["5.3", "5.3.1", "5.10-rc1", "5.10"]
  ∧ key_function "5.10-rc1" = some [5, 10, 1]
  ∧ key_function "5.10" = some [5, 10]
  ∧ pyListLt [5, 10] [5, 10, 1] = true := by decide

/-- Claim C2, counterexample. The claim states worker tasks never write to the
store; but `between` (the function submitted to the process pool) itself calls
`store_commits_into_db`: on a two-line log it performs a non-empty list of
store writes from inside the worker. -/
theorem c2_counterexample :
    between c2_lines (fun _ => "fullhash") "v5.3"
      = some ([DbWrite.store_commits ["fullhash"]], [some "foo.c"],
          [Change.mk "fullhash" none none (some "foo.c") "v5.3"])
  ∧ ([DbWrite.store_commits ["fullhash"]] : List DbWrite) ≠ [] := by decide

/-- Claim C2, amended. Whenever `between` succeeds, the writes it performs
from inside the worker are exactly one `store_commits_into_db` call on the
deduplicated commit set; the files and changes of the result batch are left
for the coordinating process to store. -/
theorem c2_worker_writes_commits (lines : List String) (resolver : String → String)
    (e : String) (w : List DbWrite) (fs : List (Option String)) (many : List Change)
    (hb : between lines resolver e = some (w, fs, many)) :
    w = [DbWrite.store_commits (pySet (many.map (fun c => c.commit)))] :=
  (between_elim hb).2.1

/-- Claim C2, witness for the amended theorem at a concrete log excerpt. -/
theorem c2_worker_writes_commits_witness :
    [DbWrite.store_commits ["fullhash"]]
      = [DbWrite.store_commits (pySet
          (([Change.mk "fullhash" none none (some "foo.c") "v5.3"]).map (fun c => c.commit)))] :=
  c2_worker_writes_commits c2_lines (fun _ => "fullhash") "v5.3"
    [DbWrite.store_commits ["fullhash"]] [some "foo.c"]
    [Change.mk "fullhash" none none (some "foo.c") "v5.3"] (by decide)

/-- Claim C3. The claim states the `added` view (both arms) matches exactly the
addition-shaped facts (`from=null, to=F`). On a database where branch `SLE15`
has a backported addition (`c1` adds `a.c`) and a backported deletion (`c2`
deletes `b.c`), the backport arm of `added` returns the DELETION fact and
omits the addition: `backports_added` is written with the same body as
`backports_removed` (`f.id = ch.from_id AND ch.to_id IS NULL`). -/
theorem c3_added_view_eval :
    backports_added c3_db = [BaseRow.mk "SLE15" "b.c" "c2"]
  ∧ backports_added c3_db = backports_removed c3_db
  ∧ added c3_db = [UnionRow.mk "SLE15" "a.c" "c1" "base",
      UnionRow.mk "SLE15" "b.c" "c2" "backport"]
  ∧ UnionRow.mk "SLE15" "a.c" "c1" "backport" ∉ added c3_db
  ∧ removed c3_db = [UnionRow.mk "SLE15" "b.c" "c2" "base",
      UnionRow.mk "SLE15" "b.c" "c2" "backport"] := by decide

/-- Claim C4. On any non-empty tag sequence not containing the synthetic
trailing tag, the range partitioner produces exactly the snapshot descriptor
`("", first)` (absent lower bound) followed by one `(prev, cur)` descriptor
per consecutive pair, and no descriptor mentions the synthetic tag. -/
theorem c4_partition_shape (t0 : String) (rest : List String)
    (hm : "master" ∉ t0 :: rest) :
    prepare_tags_for_parallel_partition (t0 :: rest)
      = some (("", t0) :: List.zip (t0 :: rest) rest)
  ∧ ∀ p ∈ ("", t0) :: List.zip (t0 :: rest) rest,
      p.1 ≠ "master" ∧ p.2 ≠ "master" := by
  refine ⟨rfl, ?_⟩
  intro p hp
  rcases List.mem_cons.mp hp with rfl | h
  · constructor
    · intro h2
      simp at h2
    · intro h2
      exact hm (h2 ▸ List.mem_cons_self _ _)
  · rcases p with ⟨a, b⟩
    rcases List.of_mem_zip h with ⟨ha, hb⟩
    exact ⟨fun h2 => hm (h2 ▸ ha), fun h2 => hm (h2 ▸ List.mem_cons_of_mem _ hb)⟩

/-- Claim C4, witness at a concrete two-tag sequence. -/
theorem c4_partition_shape_witness :
    prepare_tags_for_parallel_partition ["v5.3", "v5.10"]
      = some (("", "v5.3") :: List.zip ["v5.3", "v5.10"] ["v5.10"])
  ∧ ∀ p ∈ ("", "v5.3") :: List.zip ["v5.3", "v5.10"] ["v5.10"],
      p.1 ≠ "master" ∧ p.2 ≠ "master" :=
  c4_partition_shape "v5.3" ["v5.10"] (by decide)

/-- Claim C7. Re-inserting an already-present file path through
`store_files_into_db` (`insert or ignore`) leaves the table unchanged and
raises no error, while re-inserting an already-present commit hash through
`store_commits_into_db` (plain `insert` into a `UNIQUE` column) raises an
`IntegrityError`. -/
theorem c7_file_noop_commit_error (tbl : List String) (n : String) (hn : n ∈ tbl) :
    store_files_into_db tbl [some n] = tbl
  ∧ (store_files_into_db tbl [some n]).length = tbl.length
  ∧ store_commits_into_db tbl [n]
      = Except.error "UNIQUE constraint failed: commits.name" := by
  refine ⟨?_, ?_, ?_⟩
  · simp [store_files_into_db, insert_or_ignore_file, hn]
  · simp [store_files_into_db, insert_or_ignore_file, hn]
  · simp [store_commits_into_db, hn]

/-- Claim C7, witness on a one-row table. -/
theorem c7_file_noop_commit_error_witness :
    store_files_into_db ["a.c"] [some "a.c"] = ["a.c"]
  ∧ (store_files_into_db ["a.c"] [some "a.c"]).length = (["a.c"] : List String).length
  ∧ store_commits_into_db ["a.c"] ["a.c"]
      = Except.error "UNIQUE constraint failed: commits.name" :=
  c7_file_noop_commit_error ["a.c"] "a.c" (by decide)

/-- Claim C5, counterexample. The claim states every stored Change's tag
reference resolves to the row of its window's upper tag, including the final
window bounded by the synthetic `master` pseudo-tag. But `master` is appended
only after `store_tags_into_db`, so it has no row: a change produced by the
final window's `between` call is stored with `tag_id = NULL`. -/
theorem c5_counterexample :
    between c5_lines (fun _ => "h1full") "master"
      = some ([DbWrite.store_commits ["h1full"]], [some "f.c"],
          [Change.mk "h1full" none none (some "f.c") "master"])
  ∧ store_changes_into_db [CommitRow.mk 1 "h1full"] [FileRow.mk 1 "f.c"]
      (store_tags_into_db ["v5.3"]) [Change.mk "h1full" none none (some "f.c") "master"]
      = some [ChangeRow.mk 1 none none (some 1) none]
  ∧ (∀ r ∈ store_tags_into_db ["v5.3"], r.name ≠ "master") := by decide

/-- Claim C5, amended. Every change produced by a `between` work unit carries
the window's upper tag name; when that tag is one of the stored real tags the
stored row's tag reference resolves to that tag's row, while the synthetic
`master` pseudo-tag (absent from the stored tag list) never resolves, so the
final window's rows store a NULL tag reference. -/
theorem c5_change_tag_resolution (lines : List String) (resolver : String → String)
    (e : String) (w : List DbWrite) (fs : List (Option String)) (many : List Change)
    (hb : between lines resolver e = some (w, fs, many))
    (uniq_tags : List String) (commitsT : List CommitRow) (filesT : List FileRow)
    (rows : List ChangeRow)
    (hs : store_changes_into_db commitsT filesT (store_tags_into_db uniq_tags) many
      = some rows) :
    (∀ c ∈ many, c.tag = e)
  ∧ (e ∈ uniq_tags → ∀ r ∈ rows, ∃ i, r.tag_id = some i
      ∧ TagRow.mk i e ∈ store_tags_into_db uniq_tags)
  ∧ ("master" ∉ uniq_tags →
      select_tag_id (store_tags_into_db uniq_tags) "master" = none) := by
  obtain ⟨hloop, hw, hfs⟩ := between_elim hb
  have htag : ∀ c ∈ many, c.tag = e := between_loop_tag resolver e lines none many hloop
  refine ⟨htag, fun he r hr => ?_, fun hm => select_tag_id_of_not_mem hm⟩
  rcases store_changes_into_db_mem _ _ _ many rows hs r hr with ⟨c, hcmem, cid, hcid, hreq⟩
  rcases select_tag_id_of_mem he with ⟨i, hsel, hrow⟩
  refine ⟨i, ?_, hrow⟩
  rw [hreq]
  show select_tag_id (store_tags_into_db uniq_tags) c.tag = some i
  rw [htag c hcmem, hsel]

/-- Claim C5, witness: a real-tag window's stored change resolves to that
tag's row. -/
theorem c5_change_tag_resolution_witness :
    ∃ i, (ChangeRow.mk 1 none none (some 1) (some 1)).tag_id = some i
      ∧ TagRow.mk i "v5.3" ∈ store_tags_into_db ["v5.3"] := by
  have h := c5_change_tag_resolution c5_lines (fun _ => "h1full") "v5.3"
    [DbWrite.store_commits ["h1full"]] [some "f.c"]
    [Change.mk "h1full" none none (some "f.c") "v5.3"] (by decide)
    ["v5.3"] [CommitRow.mk 1 "h1full"] [FileRow.mk 1 "f.c"]
    [ChangeRow.mk 1 none none (some 1) (some 1)] (by decide)
  exact h.2.1 (by decide) (ChangeRow.mk 1 none none (some 1) (some 1)) (by decide)

/-- Claim C6. A raw-diff body line whose 5th space-field tab-splits into a
status and paths is classified by status letter: `R...` yields a rename record
`(from, to)` carrying the numeric score parsed from the status, `A...` an
addition record `(null, path)`, `D...` a deletion record `(path, null)`, and
any other status yields no record. -/
theorem c6_raw_line_classification (h : Option String) (e l f4 r0 : String)
    (rest : List String)
    (h4 : (pySplit l (fun c => c == ' '))[4]? = some f4)
    (ht : pySplit f4 (fun c => c == '\t') = r0 :: rest) :
    (∀ p1 p2 r2 sc, pyStartsWith r0 "R" = true → rest = p1 :: p2 :: r2 →
        pyParseInt (pyDropStr r0 1) = some sc →
        classify_raw_line h e l
          = some (some (Change.mk (pyStr h) (some sc) (some p1) (some p2) e)))
  ∧ (∀ p1 r2, pyStartsWith r0 "R" = false → pyStartsWith r0 "A" = true →
        rest = p1 :: r2 →
        classify_raw_line h e l = some (some (Change.mk (pyStr h) none none (some p1) e)))
  ∧ (∀ p1 r2, pyStartsWith r0 "R" = false → pyStartsWith r0 "A" = false →
        pyStartsWith r0 "D" = true → rest = p1 :: r2 →
        classify_raw_line h e l = some (some (Change.mk (pyStr h) none (some p1) none e)))
  ∧ (pyStartsWith r0 "R" = false → pyStartsWith r0 "A" = false →
        pyStartsWith r0 "D" = false → classify_raw_line h e l = some none) := by
  refine ⟨fun p1 p2 r2 sc hR hrest hsc => ?_, fun p1 r2 hR hA hrest => ?_,
    fun p1 r2 hR hA hD hrest => ?_, fun hR hA hD => ?_⟩
  · simp [classify_raw_line, get_renames_with_score_or_none, h4, ht, hrest, hR, hsc]
  · simp [classify_raw_line, get_renames_with_score_or_none, h4, ht, hrest, hR, hA]
  · simp [classify_raw_line, get_renames_with_score_or_none, h4, ht, hrest, hR, hA, hD]
  · simp [classify_raw_line, get_renames_with_score_or_none, h4, ht, hR, hA, hD]

/-- Claim C6, witness on a concrete rename line with score 95. -/
theorem c6_raw_line_classification_witness :
    classify_raw_line (some "abc") "v5.10" ":100644 100644 1111111 2222222 R095\ta.c\tb.c"
      = some (some (Change.mk "abc" (some 95) (some "a.c") (some "b.c") "v5.10")) := by
  have h := c6_raw_line_classification (some "abc") "v5.10"
    ":100644 100644 1111111 2222222 R095\ta.c\tb.c" "R095\ta.c\tb.c" "R095"
    ["a.c", "b.c"] (by decide) (by decide)
  exact h.1 "a.c" "b.c" [] 95 (by decide) rfl (by decide)

/-- Claim C8, counterexample. The claim states a branch whose blob lacks the
`SRCVERSION=` line is reported and excluded; in fact `extract_srcversion`
returns the empty string and the branch is silently INCLUDED in the mapping
with value `""` (only the blob-absent branch `gone` is reported/excluded). -/
theorem c8_counterexample :
    get_tags_from_ksource_tree ["gone", "nokey"] c8_blob = ([("nokey", "")], ["gone"])
  ∧ ("nokey", "") ∈ (get_tags_from_ksource_tree ["gone", "nokey"] c8_blob).1
  ∧ "nokey" ∉ (get_tags_from_ksource_tree ["gone", "nokey"] c8_blob).2 := by decide

/-- Claim C8, amended. A branch whose configuration blob is absent is
reported on the error stream and excluded from the mapping; a branch whose
blob is present but lacks a `SRCVERSION=` line is neither reported nor
excluded — it is included with the empty version string. -/
theorem c8_blob_absent_reported_excluded (branches : List String)
    (blob : String → Option String) (b content : String) :
    (blob b = none →
        (b ∈ branches → b ∈ (get_tags_from_ksource_tree branches blob).2)
      ∧ b ∉ (get_tags_from_ksource_tree branches blob).1.map Prod.fst)
  ∧ (blob b = some content → b ∈ branches →
      (b, extract_srcversion content) ∈ (get_tags_from_ksource_tree branches blob).1)
  ∧ ((∀ l ∈ pySplit content (fun c => c == '\n'), pyStartsWith l "SRCVERSION=" = false) →
      extract_srcversion content = "") := by
  refine ⟨fun hnone => ?_, fun hsome hmem => ?_, fun hno => ?_⟩
  · induction branches with
    | nil =>
      exact ⟨fun h => absurd h (List.not_mem_nil b), by simp [get_tags_from_ksource_tree]⟩
    | cons b0 bs ih =>
      simp only [get_tags_from_ksource_tree]
      cases hb0 : blob b0 with
      | some c0 =>
        constructor
        · intro hmem
          rcases List.mem_cons.mp hmem with rfl | hmem2
          · rw [hb0] at hnone; cases hnone
          · exact ih.1 hmem2
        · intro hmap
          simp only [List.map_cons, List.mem_cons] at hmap
          rcases hmap with rfl | hmap2
          · rw [hb0] at hnone; cases hnone
          · exact ih.2 hmap2
      | none =>
        constructor
        · intro hmem
          rcases List.mem_cons.mp hmem with rfl | hmem2
          · exact List.mem_cons_self _ _
          · exact List.mem_cons_of_mem _ (ih.1 hmem2)
        · exact ih.2
  · induction branches with
    | nil => cases hmem
    | cons b0 bs ih =>
      simp only [get_tags_from_ksource_tree]
      cases hb0 : blob b0 with
      | some c0 =>
        rcases List.mem_cons.mp hmem with rfl | hmem2
        · rw [hb0] at hsome
          injection hsome with hcc
          subst hcc
          exact List.mem_cons_self _ _
        · exact List.mem_cons_of_mem _ (ih hmem2)
      | none =>
        rcases List.mem_cons.mp hmem with rfl | hmem2
        · rw [hb0] at hsome; cases hsome
        · exact ih hmem2
  · unfold extract_srcversion
    revert hno
    generalize pySplit content (fun c => c == '\n') = ls
    intro hno
    induction ls with
    | nil => rfl
    | cons l0 ls2 ih =>
      have h0 : pyStartsWith l0 "SRCVERSION=" = false := hno l0 (List.mem_cons_self _ _)
      simp only [extract_srcversion_go, h0, Bool.false_eq_true, if_false]
      exact ih (fun x hx => hno x (List.mem_cons_of_mem _ hx))

/-- Claim C8, witness: the blob-absent branch is reported and excluded; the
key-absent branch is included with the empty version. -/
theorem c8_blob_absent_reported_excluded_witness :
    "gone" ∈ (get_tags_from_ksource_tree ["gone", "nokey"] c8_blob).2
  ∧ "gone" ∉ (get_tags_from_ksource_tree ["gone", "nokey"] c8_blob).1.map Prod.fst
  ∧ ("nokey", "") ∈ (get_tags_from_ksource_tree ["gone", "nokey"] c8_blob).1 := by
  have h1 := c8_blob_absent_reported_excluded ["gone", "nokey"] c8_blob "gone" ""
  have h2 := c8_blob_absent_reported_excluded ["gone", "nokey"] c8_blob "nokey" "FOO=1\nBAR=2"
  refine ⟨(h1.1 rfl).1 (by decide), (h1.1 rfl).2, ?_⟩
  have h3 := h2.2.1 rfl (by decide)
  have h4 : extract_srcversion "FOO=1\nBAR=2" = "" := by decide
  rwa [h4] at h3

/-- Claim C9. For a patch blob whose newline-split is `pre ++ l :: suf` where
no line of `pre` matches `HASH_PATTERN` and `l` has first capture `p`, the
correlator's result is exactly `resolver p` — independent of every later line
and of later matches on `l`; and when resolving `p` fails, that blob
contributes no candidate while the branch scan continues over later blobs. -/
theorem c9_first_reference_wins (resolver : String → Option String)
    (fc : String) (pre suf : List String) (l p : String) (rest : List String)
    (hsplit : pySplit fc (fun c => c == '\n') = pre ++ l :: suf)
    (hpre : ∀ x ∈ pre, findall x = [])
    (hl : findall l = p :: rest) :
    get_hash_or_nothing fc resolver = resolver p
  ∧ (resolver p = none →
      ∀ (b fc2 h2 : String) (patches : String → Option (List String)),
        patches b = some [fc, fc2] →
        get_hash_or_nothing fc2 resolver = some h2 → h2 ≠ "" →
        get_commits_per_branch [b] patches resolver = [(b, [h2])]) := by
  have hgo : ∀ (pre2 : List String), (∀ x ∈ pre2, findall x = []) →
      get_hash_or_nothing_go resolver (pre2 ++ l :: suf) = resolver p := by
    intro pre2 hpre2
    induction pre2 with
    | nil =>
      simp only [List.nil_append, get_hash_or_nothing_go, hl]
      cases resolver p <;> rfl
    | cons x t ih =>
      have hx : findall x = [] := hpre2 x (List.mem_cons_self _ _)
      simp only [List.cons_append, get_hash_or_nothing_go, hx]
      exact ih (fun y hy => hpre2 y (List.mem_cons_of_mem _ hy))
  have hmain : get_hash_or_nothing fc resolver = resolver p := by
    unfold get_hash_or_nothing
    rw [hsplit]
    exact hgo pre hpre
  refine ⟨hmain, fun hnone b fc2 h2 patches hp hfc2 hh2 => ?_⟩
  have h1 : get_hash_or_nothing fc resolver = none := by rw [hmain, hnone]
  have hbe : (h2 == "") = false := beq_eq_false_iff_ne.mpr hh2
  simp [get_commits_per_branch, hp, List.filterMap_cons, h1, hfc2, hbe, hh2]

/-- Claim C9, witness: a blob with an unresolvable first reference and a
resolvable second line contributes nothing, while a later blob of the same
branch still contributes. -/
theorem c9_first_reference_wins_witness :
    get_hash_or_nothing c9_blob_fail c9_resolver = none
  ∧ get_commits_per_branch ["b1"] c9_patches c9_resolver
      = [("b1", ["resolved-full-hash"])] := by
  have h := c9_first_reference_wins c9_resolver c9_blob_fail
    ["subject line"] ["Git-commit: abcdefabcdef"] "Git-commit: 0123456789abc"
    "0123456789abc" [] (by decide) (by decide) (by decide)
  refine ⟨by rw [h.1]; decide, ?_⟩
  exact h.2 (by decide) "b1" c9_blob_ok "resolved-full-hash" c9_patches (by decide)
    (by decide) (by decide)

/-- Claim C10. When a work unit's parsed history contains a deletion record,
the file set `between` returns contains a null element (`to`-paths are
collected unfiltered), yet `store_files_into_db` stores that set exactly as
it stores the set with the nulls filtered out: `insert or ignore` silently
absorbs the NOT NULL violation, and the files table (a list of real path
strings) never holds a null path. -/
theorem c10_null_to_path_absorbed (lines : List String) (resolver : String → String)
    (e : String) (w : List DbWrite) (fs : List (Option String)) (many : List Change)
    (hb : between lines resolver e = some (w, fs, many))
    (c : Change) (hc : c ∈ many) (_hfrom : c.fromF ≠ none) (hto : c.toF = none) :
    none ∈ fs
  ∧ ∀ tbl, store_files_into_db tbl fs
      = store_files_into_db tbl (fs.filter (fun o => o.isSome)) := by
  obtain ⟨hloop, hw, hfs⟩ := between_elim hb
  constructor
  · subst hfs
    apply mem_pySet_of
    apply mem_groupbyKeys_of
    exact List.mem_append.mpr (Or.inr (List.mem_map.mpr ⟨c, hc, hto⟩))
  · intro tbl
    exact store_files_into_db_filter fs tbl

/-- Claim C10, witness on a one-deletion log excerpt. -/
theorem c10_null_to_path_absorbed_witness :
    (none ∈ ([some "old.c", none] : List (Option String)))
  ∧ store_files_into_db [] [some "old.c", none]
      = store_files_into_db []
          (([some "old.c", none] : List (Option String)).filter (fun o => o.isSome)) := by
  have h := c10_null_to_path_absorbed c10_lines (fun _ => "deadbeeffull") "v5.3"
    [DbWrite.store_commits ["deadbeeffull"]] [some "old.c", none]
    [Change.mk "deadbeeffull" none (some "old.c") none "v5.3"]
    (by decide) (Change.mk "deadbeeffull" none (some "old.c") none "v5.3")
    (by decide) (by decide) (by decide)
  exact ⟨h.1, h.2 []⟩

